import Mathlib

/-!
Verification of the equality and memoization library of this repository
(`src/@lib/equalities/deepEquals.ts` shallowEquals/deepEquals, and
`src/@lib/hooks/useMemo.ts` useMemo/useCallback/useDeepMemo) against its
natural-language specification.

JavaScript values are shallowly embedded as the inductive `JSValue`.
Arrays and plain objects carry an explicit reference identifier `ref`
modelling the JS heap reference, so that strict equality (`===`) on
object-like values compares references while primitives compare by value.
Numbers are modelled as integers in `JSValue`; the distinguished
IEEE-754 NaN value — the one JS value that is not strictly equal to
itself (`NaN === NaN` is false, `typeof NaN` is `"number"`) — is
restored by the extended model `JSValueN` below, over which the
reflexivity claim, the one claim NaN decides, is settled.
A comparison that raises a JS `TypeError` (e.g. `Object.keys(null)`)
is modelled by the result `none : Option Bool`.
-/

inductive JSValue : Type where
  | vNull : JSValue
  | vUndef : JSValue
  | vBool : Bool → JSValue
  | vNum : Int → JSValue
  | vStr : String → JSValue
  | vArr : Nat → List JSValue → JSValue
  | vObj : Nat → List (String × JSValue) → JSValue

mutual

/-- Structural size of a value: an upper bound on the depth of the
recursion of `deepEquals`, used as its fuel. -/
def jsSize : JSValue → Nat
  | JSValue.vArr _ elems => 1 + jsSizeList elems
  | JSValue.vObj _ fields => 1 + jsSizeFields fields
  | _ => 1

/-- Structural size of an element list. -/
def jsSizeList : List JSValue → Nat
  | [] => 0
  | v :: rest => 1 + jsSize v + jsSizeList rest

/-- Structural size of a field list. -/
def jsSizeFields : List (String × JSValue) → Nat
  | [] => 0
  | (_, v) :: rest => 1 + jsSize v + jsSizeFields rest

end

/-- JS strict equality `===`: value equality on primitives, reference
equality on arrays and objects, never equal across kinds. -/
def strictEq : JSValue → JSValue → Bool
  | JSValue.vNull, JSValue.vNull => true
  | JSValue.vUndef, JSValue.vUndef => true
  | JSValue.vBool x, JSValue.vBool y => x == y
  | JSValue.vNum x, JSValue.vNum y => x == y
  | JSValue.vStr x, JSValue.vStr y => x == y
  | JSValue.vArr r _, JSValue.vArr s _ => r == s
  | JSValue.vObj r _, JSValue.vObj s _ => r == s
  | _, _ => false

/-- JS `typeof` (note `typeof null` is `"object"`). -/
def jsTypeof : JSValue → String
  | JSValue.vNull => "object"
  | JSValue.vUndef => "undefined"
  | JSValue.vBool _ => "boolean"
  | JSValue.vNum _ => "number"
  | JSValue.vStr _ => "string"
  | JSValue.vArr _ _ => "object"
  | JSValue.vObj _ _ => "object"

/-- JS `Array.isArray`. -/
def isArray : JSValue → Bool
  | JSValue.vArr _ _ => true
  | _ => false

/-- Own enumerable index properties of an array, as string keys paired
with the elements, starting from index `i`. -/
def indexProps (i : Nat) : List JSValue → List (String × JSValue)
  | [] => []
  | v :: rest => (toString i, v) :: indexProps (i + 1) rest

/-- Own enumerable properties of a value. Arrays expose their elements
under the string indices "0", "1", …; objects expose their fields.
Primitives expose none (the embedded comparators never enumerate
properties of primitives because of their `typeof` guards). -/
def jsProps : JSValue → List (String × JSValue)
  | JSValue.vArr _ elems => indexProps 0 elems
  | JSValue.vObj _ fields => fields
  | _ => []

/-- First-match association lookup, as JS property resolution over the
own enumerable properties. -/
def assocGet : List (String × JSValue) → String → Option JSValue
  | [], _ => none
  | (k, v) :: rest, key => if k == key then some v else assocGet rest key

/-- JS property access `v[key]`: `undefined` when the key is absent. -/
def jsGet (v : JSValue) (key : String) : JSValue :=
  (assocGet (jsProps v) key).getD JSValue.vUndef

/-- JS `Object.keys`: raises a TypeError (modelled as `none`) on
`null`/`undefined`, otherwise lists the own enumerable keys. -/
def objectKeys : JSValue → Option (List String)
  | JSValue.vNull => none
  | JSValue.vUndef => none
  | v => some ((jsProps v).map Prod.fst)

/-- Short-circuiting conjunction over a list of pairs, as the
`for … if (!f(…)) return false` loops of the source: stops at the first
result that is not `some (some true)` (i.e. first mismatch, thrown
error, or exhausted fuel) and propagates it. -/
def runPairs (f : JSValue → JSValue → Option (Option Bool)) :
    List (JSValue × JSValue) → Option (Option Bool)
  | [] => some (some true)
  | p :: rest =>
    match f p.1 p.2 with
    | some (some true) => runPairs f rest
    | r => r

/-- Short-circuiting conjunction over a list of pairs for the fuel-free
result type: stops at the first result that is not `some true`. -/
def runPairsP (f : JSValue → JSValue → Option Bool) :
    List (JSValue × JSValue) → Option Bool
  | [] => some true
  | p :: rest =>
    match f p.1 p.2 with
    | some true => runPairsP f rest
    | r => r

/-- Fuel-indexed embedding of `deepEquals` from
`src/@lib/equalities/deepEquals.ts`. The outer `Option` is fuel
exhaustion (`none`), never reached with fuel at least `jsSize objA`
(proved below); the inner `Option Bool` is the JS result, `none`
standing for a raised TypeError. The branches mirror the source in
order: strict equality, the (redundant) `objA === null && objB === null`
check, the both-arrays branch comparing lengths then each index
recursively, the both-`typeof`-"object" branch comparing key counts then
each key of `objA` recursively, and `false` otherwise. -/
def deepEqualsF : Nat → JSValue → JSValue → Option (Option Bool)
  | 0, _, _ => none
  | n + 1, objA, objB =>
    if strictEq objA objB then some (some true)
    else if strictEq objA JSValue.vNull && strictEq objB JSValue.vNull then
      some (some true)
    else
      match objA, objB with
      | JSValue.vArr _ ea, JSValue.vArr _ eb =>
        if ea.length = eb.length then
          runPairs (fun x y => deepEqualsF n x y) (ea.zip eb)
        else some (some false)
      | a, b =>
        if jsTypeof a == "object" && jsTypeof b == "object" then
          match objectKeys a, objectKeys b with
          | some ka, some kb =>
            if ka.length = kb.length then
              runPairs (fun x y => deepEqualsF n x y)
                (ka.map fun k => (jsGet a k, jsGet b k))
            else some (some false)
          | _, _ => some none
        else some (some false)

/-- `deepEquals(objA, objB)`: the fuel-indexed recursion run with the
(provably sufficient) fuel `jsSize objA`. `some b` is a returned
boolean, `none` a raised TypeError. -/
def deepEquals (objA objB : JSValue) : Option Bool :=
  (deepEqualsF (jsSize objA) objA objB).getD none

/-- Embedding of `shallowEquals` from `src/@lib/hooks/useMemo.ts`
(`equalities` module): strict equality, then the
`typeof … !== "object"` guard, then `Object.keys` counts (keys of
`objA` first, as the source's evaluation order — `Object.keys(null)`
raises), then one strict-equality comparison per key of `objA`. -/
def shallowEquals (objA objB : JSValue) : Option Bool :=
  if strictEq objA objB then some true
  else if jsTypeof objA != "object" || jsTypeof objB != "object" then
    some false
  else
    match objectKeys objA, objectKeys objB with
    | some ka, some kb =>
      if ka.length = kb.length then
        some (ka.all fun key => strictEq (jsGet objA key) (jsGet objB key))
      else some false
    | _, _ => none

/-! ### Basic lemmas about the value model -/

theorem strictEq_refl (v : JSValue) : strictEq v v = true := by
  cases v <;> simp [strictEq]

theorem strictEq_null_right {a : JSValue} (h : strictEq a JSValue.vNull = true) :
    a = JSValue.vNull := by
  cases a <;> simp_all [strictEq]

theorem jsSize_pos (v : JSValue) : 1 ≤ jsSize v := by
  cases v <;> simp [jsSize]

theorem jsSize_lt_of_mem {v : JSValue} {l : List JSValue} (h : v ∈ l) :
    jsSize v < jsSizeList l := by
  induction l with
  | nil => cases h
  | cons x xs ihl =>
    rcases List.mem_cons.mp h with h1 | h1
    · subst h1; simp [jsSizeList]; omega
    · have := ihl h1; simp [jsSizeList]; omega

theorem jsSize_lt_of_field_mem {k : String} {v : JSValue}
    {fields : List (String × JSValue)} (h : (k, v) ∈ fields) :
    jsSize v < jsSizeFields fields := by
  induction fields with
  | nil => cases h
  | cons x xs ihl =>
    rcases List.mem_cons.mp h with h1 | h1
    · subst h1; simp [jsSizeFields]; omega
    · have := ihl h1
      obtain ⟨xk, xv⟩ := x
      simp [jsSizeFields]; omega

theorem mem_of_indexProps {k : String} {v : JSValue} :
    ∀ {i : Nat} {l : List JSValue}, (k, v) ∈ indexProps i l → v ∈ l := by
  intro i l
  induction l generalizing i with
  | nil => intro h; cases h
  | cons x xs ihl =>
    intro h
    rcases List.mem_cons.mp h with h1 | h1
    · have hv : v = x := congrArg Prod.snd h1
      subst hv
      exact List.mem_cons_self v xs
    · exact List.mem_cons_of_mem x (ihl h1)

theorem assocGet_mem {l : List (String × JSValue)} {key : String} {v : JSValue}
    (h : assocGet l key = some v) : ∃ k, (k, v) ∈ l := by
  induction l with
  | nil => simp [assocGet] at h
  | cons x xs ihl =>
    obtain ⟨xk, xv⟩ := x
    by_cases hk : (xk == key) = true
    · simp [assocGet, hk] at h
      exact ⟨xk, by simp [h]⟩
    · rw [Bool.not_eq_true] at hk
      simp [assocGet, hk] at h
      obtain ⟨k, hmem⟩ := ihl h
      exact ⟨k, List.mem_cons_of_mem _ hmem⟩

theorem jsGet_size_lt (a : JSValue) (key : String) (hne : jsProps a ≠ []) :
    jsSize (jsGet a key) < jsSize a := by
  cases a with
  | vArr r elems =>
    have helems : elems ≠ [] := by
      intro h0; subst h0; simp [jsProps, indexProps] at hne
    have hlist : 1 ≤ jsSizeList elems := by
      cases elems with
      | nil => exact absurd rfl helems
      | cons x xs => simp [jsSizeList]; omega
    rw [jsGet]
    cases hass : assocGet (jsProps (JSValue.vArr r elems)) key with
    | none => simp [jsSize, Option.getD]; omega
    | some v =>
      obtain ⟨k, hmem⟩ := assocGet_mem hass
      have hv : v ∈ elems := mem_of_indexProps (by simpa [jsProps] using hmem)
      have := jsSize_lt_of_mem hv
      simp [jsSize, Option.getD]; omega
  | vObj r fields =>
    have hfields : 1 ≤ jsSizeFields fields := by
      cases fields with
      | nil => simp [jsProps] at hne
      | cons x xs => obtain ⟨xk, xv⟩ := x; simp [jsSizeFields]; omega
    rw [jsGet]
    cases hass : assocGet (jsProps (JSValue.vObj r fields)) key with
    | none => simp [jsSize, Option.getD]; omega
    | some v =>
      obtain ⟨k, hmem⟩ := assocGet_mem hass
      have : jsSize v < jsSizeFields fields :=
        jsSize_lt_of_field_mem (by simpa [jsProps] using hmem)
      simp [jsSize, Option.getD]; omega
  | vNull => simp [jsProps] at hne
  | vUndef => simp [jsProps] at hne
  | vBool b => simp [jsProps] at hne
  | vNum x => simp [jsProps] at hne
  | vStr s => simp [jsProps] at hne

theorem fst_mem_of_mem_zip {p : JSValue × JSValue} :
    ∀ {l1 l2 : List JSValue}, p ∈ l1.zip l2 → p.1 ∈ l1 := by
  intro l1
  induction l1 with
  | nil => intro l2 h; simp [List.zip] at h
  | cons x xs ihl =>
    intro l2 h
    cases l2 with
    | nil => simp [List.zip] at h
    | cons y ys =>
      rcases List.mem_cons.mp h with h1 | h1
      · subst h1; exact List.mem_cons_self x xs
      · exact List.mem_cons_of_mem x (ihl h1)

theorem runPairs_eq_of_fuel (m : Nat) (l : List (JSValue × JSValue))
    (hf : ∀ p ∈ l, deepEqualsF m p.1 p.2 = some (deepEquals p.1 p.2)) :
    runPairs (fun x y => deepEqualsF m x y) l = some (runPairsP deepEquals l) := by
  induction l with
  | nil => rfl
  | cons p rest ihl =>
    have hp := hf p (List.mem_cons_self p rest)
    rw [runPairs, runPairsP, hp]
    cases deepEquals p.1 p.2 with
    | none => rfl
    | some b =>
      cases b with
      | true => exact ihl fun q hq => hf q (List.mem_cons_of_mem p hq)
      | false => rfl

theorem runPairsP_eq_true_iff (g : JSValue → JSValue → Option Bool)
    (l : List (JSValue × JSValue)) :
    runPairsP g l = some true ↔ ∀ p ∈ l, g p.1 p.2 = some true := by
  induction l with
  | nil => simp [runPairsP]
  | cons p rest ihl =>
    rw [runPairsP]
    cases hg : g p.1 p.2 with
    | none => simp [hg]
    | some b =>
      cases b with
      | true => simp [ihl, hg]
      | false => simp [hg]

theorem runPairs_fuel_pair (m t : Nat) (l : List (JSValue × JSValue))
    (hm : ∀ p ∈ l, deepEqualsF m p.1 p.2 = some (deepEquals p.1 p.2))
    (ht : ∀ p ∈ l, deepEqualsF t p.1 p.2 = some (deepEquals p.1 p.2)) :
    runPairs (fun x y => deepEqualsF m x y) l
      = some ((runPairs (fun x y => deepEqualsF t x y) l).getD none) := by
  rw [runPairs_eq_of_fuel m l hm, runPairs_eq_of_fuel t l ht]
  rfl

theorem size_bound_keys (a b : JSValue) (ka : List String)
    (hka : objectKeys a = some ka) (p : JSValue × JSValue)
    (hp : p ∈ ka.map fun k => (jsGet a k, jsGet b k)) :
    jsSize p.1 < jsSize a := by
  obtain ⟨k, hk, hpk⟩ := List.mem_map.mp hp
  have h1 : p.1 = jsGet a k := by rw [← hpk]
  rw [h1]
  apply jsGet_size_lt
  intro hnil
  cases a <;> simp_all [objectKeys, jsProps]

/-! ### Fuel sufficiency: `jsSize objA` bounds the recursion depth -/

theorem deepEqualsF_complete : ∀ (n : Nat) (a b : JSValue), jsSize a ≤ n →
    deepEqualsF n a b = some (deepEquals a b) := by
  intro n
  induction n using Nat.strong_induction_on with
  | _ n ih =>
  intro a b h
  cases n with
  | zero => exact absurd h (by have := jsSize_pos a; omega)
  | succ m =>
    obtain ⟨t, ht⟩ : ∃ t, jsSize a = t + 1 :=
      ⟨jsSize a - 1, by have := jsSize_pos a; omega⟩
    unfold deepEquals
    rw [ht]
    by_cases hs : strictEq a b = true
    · simp [deepEqualsF, hs]
    · rw [Bool.not_eq_true] at hs
      by_cases hnl : (strictEq a JSValue.vNull && strictEq b JSValue.vNull) = true
      · simp [deepEqualsF, hs, hnl]
      · rw [Bool.not_eq_true] at hnl
        have hrec : ∀ (l : List (JSValue × JSValue)),
            (∀ p ∈ l, jsSize p.1 < jsSize a) →
            runPairs (fun x y => deepEqualsF m x y) l
              = some ((runPairs (fun x y => deepEqualsF t x y) l).getD none) := by
          intro l hl
          apply runPairs_fuel_pair
          · intro p hp
            exact ih m (by omega) p.1 p.2 (by have := hl p hp; omega)
          · intro p hp
            exact ih t (by omega) p.1 p.2 (by have := hl p hp; omega)
        cases a with
        | vArr ra ea =>
          cases b with
          | vArr rb eb =>
            simp only [deepEqualsF, hs, hnl, Bool.false_eq_true, if_false]
            by_cases hlen : ea.length = eb.length
            · simp only [hlen, if_pos rfl, if_true]
              apply hrec
              intro p hp
              have h1 := jsSize_lt_of_mem (fst_mem_of_mem_zip hp)
              simp [jsSize]
              omega
            · simp [hlen]
          | vObj rb fb =>
            simp only [deepEqualsF, hs, hnl, Bool.false_eq_true, if_false,
              jsTypeof, objectKeys, jsProps, List.length_map]
            by_cases hlen : (indexProps 0 ea).length = fb.length
            · simp only [hlen, if_pos rfl, if_true]
              apply hrec
              intro p hp
              exact size_bound_keys (JSValue.vArr ra ea) (JSValue.vObj rb fb)
                ((indexProps 0 ea).map Prod.fst) rfl p (by simpa using hp)
            · simp [hlen]
          | vNull => simp [deepEqualsF, hs, hnl, jsTypeof, objectKeys]
          | vUndef => simp [deepEqualsF, hs, hnl, jsTypeof]
          | vBool xb => simp [deepEqualsF, hs, hnl, jsTypeof]
          | vNum xn => simp [deepEqualsF, hs, hnl, jsTypeof]
          | vStr xs => simp [deepEqualsF, hs, hnl, jsTypeof]
        | vObj ra fa =>
          cases b with
          | vArr rb eb =>
            simp only [deepEqualsF, hs, hnl, Bool.false_eq_true, if_false,
              jsTypeof, objectKeys, jsProps, List.length_map]
            by_cases hlen : fa.length = (indexProps 0 eb).length
            · simp only [hlen, if_pos rfl, if_true]
              apply hrec
              intro p hp
              exact size_bound_keys (JSValue.vObj ra fa) (JSValue.vArr rb eb)
                (fa.map Prod.fst) rfl p (by simpa using hp)
            · simp [hlen]
          | vObj rb fb =>
            simp only [deepEqualsF, hs, hnl, Bool.false_eq_true, if_false,
              jsTypeof, objectKeys, jsProps, List.length_map]
            by_cases hlen : fa.length = fb.length
            · simp only [hlen, if_pos rfl, if_true]
              apply hrec
              intro p hp
              exact size_bound_keys (JSValue.vObj ra fa) (JSValue.vObj rb fb)
                (fa.map Prod.fst) rfl p (by simpa using hp)
            · simp [hlen]
          | vNull => simp [deepEqualsF, hs, hnl, jsTypeof, objectKeys]
          | vUndef => simp [deepEqualsF, hs, hnl, jsTypeof]
          | vBool xb => simp [deepEqualsF, hs, hnl, jsTypeof]
          | vNum xn => simp [deepEqualsF, hs, hnl, jsTypeof]
          | vStr xs => simp [deepEqualsF, hs, hnl, jsTypeof]
        | vNull =>
          cases b <;> simp [deepEqualsF, hs, hnl, jsTypeof, objectKeys]
        | vUndef =>
          cases b <;> simp [deepEqualsF, hs, hnl, jsTypeof, strictEq]
        | vBool xb =>
          cases b <;> simp [deepEqualsF, hs, hnl, jsTypeof]
        | vNum xn =>
          cases b <;> simp [deepEqualsF, hs, hnl, jsTypeof]
        | vStr xs =>
          cases b <;> simp [deepEqualsF, hs, hnl, jsTypeof]

/-- The recurrence satisfied by `deepEquals`, mirroring the source
line by line with the fuel eliminated. -/
theorem deepEquals_eq (a b : JSValue) :
    deepEquals a b =
      if strictEq a b then some true
      else if strictEq a JSValue.vNull && strictEq b JSValue.vNull then some true
      else
        match a, b with
        | JSValue.vArr _ ea, JSValue.vArr _ eb =>
          if ea.length = eb.length then runPairsP deepEquals (ea.zip eb)
          else some false
        | a, b =>
          if jsTypeof a == "object" && jsTypeof b == "object" then
            match objectKeys a, objectKeys b with
            | some ka, some kb =>
              if ka.length = kb.length then
                runPairsP deepEquals (ka.map fun k => (jsGet a k, jsGet b k))
              else some false
            | _, _ => none
          else some false := by
  obtain ⟨t, ht⟩ : ∃ t, jsSize a = t + 1 :=
    ⟨jsSize a - 1, by have := jsSize_pos a; omega⟩
  conv_lhs => rw [deepEquals, ht]
  have hrun : ∀ (l : List (JSValue × JSValue)),
      (∀ p ∈ l, jsSize p.1 < jsSize a) →
      runPairs (fun x y => deepEqualsF t x y) l = some (runPairsP deepEquals l) := by
    intro l hl
    apply runPairs_eq_of_fuel
    intro p hp
    exact deepEqualsF_complete t p.1 p.2 (by have := hl p hp; omega)
  by_cases hs : strictEq a b = true
  · simp [deepEqualsF, hs]
  · rw [Bool.not_eq_true] at hs
    by_cases hnl : (strictEq a JSValue.vNull && strictEq b JSValue.vNull) = true
    · simp [deepEqualsF, hs, hnl]
    · rw [Bool.not_eq_true] at hnl
      cases a with
      | vArr ra ea =>
        cases b with
        | vArr rb eb =>
          simp only [deepEqualsF, hs, hnl, Bool.false_eq_true, if_false]
          by_cases hlen : ea.length = eb.length
          · simp only [hlen, if_pos rfl, if_true]
            rw [hrun]
            · rfl
            · intro p hp
              have h1 := jsSize_lt_of_mem (fst_mem_of_mem_zip hp)
              simp [jsSize]
              omega
          · simp [hlen]
        | vObj rb fb =>
          simp only [deepEqualsF, hs, hnl, Bool.false_eq_true, if_false,
            jsTypeof, objectKeys, jsProps, List.length_map]
          by_cases hlen : (indexProps 0 ea).length = fb.length
          · simp only [hlen, if_pos rfl, if_true]
            rw [hrun]
            · rfl
            · intro p hp
              exact size_bound_keys (JSValue.vArr ra ea) (JSValue.vObj rb fb)
                ((indexProps 0 ea).map Prod.fst) rfl p (by simpa using hp)
          · simp [hlen]
        | vNull => simp [deepEqualsF, hs, hnl, jsTypeof, objectKeys]
        | vUndef => simp [deepEqualsF, hs, hnl, jsTypeof]
        | vBool xb => simp [deepEqualsF, hs, hnl, jsTypeof]
        | vNum xn => simp [deepEqualsF, hs, hnl, jsTypeof]
        | vStr xs => simp [deepEqualsF, hs, hnl, jsTypeof]
      | vObj ra fa =>
        cases b with
        | vArr rb eb =>
          simp only [deepEqualsF, hs, hnl, Bool.false_eq_true, if_false,
            jsTypeof, objectKeys, jsProps, List.length_map]
          by_cases hlen : fa.length = (indexProps 0 eb).length
          · simp only [hlen, if_pos rfl, if_true]
            rw [hrun]
            · rfl
            · intro p hp
              exact size_bound_keys (JSValue.vObj ra fa) (JSValue.vArr rb eb)
                (fa.map Prod.fst) rfl p (by simpa using hp)
          · simp [hlen]
        | vObj rb fb =>
          simp only [deepEqualsF, hs, hnl, Bool.false_eq_true, if_false,
            jsTypeof, objectKeys, jsProps, List.length_map]
          by_cases hlen : fa.length = fb.length
          · simp only [hlen, if_pos rfl, if_true]
            rw [hrun]
            · rfl
            · intro p hp
              exact size_bound_keys (JSValue.vObj ra fa) (JSValue.vObj rb fb)
                (fa.map Prod.fst) rfl p (by simpa using hp)
          · simp [hlen]
        | vNull => simp [deepEqualsF, hs, hnl, jsTypeof, objectKeys]
        | vUndef => simp [deepEqualsF, hs, hnl, jsTypeof]
        | vBool xb => simp [deepEqualsF, hs, hnl, jsTypeof]
        | vNum xn => simp [deepEqualsF, hs, hnl, jsTypeof]
        | vStr xs => simp [deepEqualsF, hs, hnl, jsTypeof]
      | vNull =>
        cases b <;> simp [deepEqualsF, hs, hnl, jsTypeof, objectKeys]
      | vUndef =>
        cases b <;> simp [deepEqualsF, hs, hnl, jsTypeof, strictEq]
      | vBool xb =>
        cases b <;> simp [deepEqualsF, hs, hnl, jsTypeof]
      | vNum xn =>
        cases b <;> simp [deepEqualsF, hs, hnl, jsTypeof]
      | vStr xs =>
        cases b <;> simp [deepEqualsF, hs, hnl, jsTypeof]

/-- Embedding of `useMemo(factory, deps, equals = shallowEquals)`. The
source body is `return factory();` — the dependency list and the
comparator are ignored and the factory is invoked on every call. -/
def useMemo {σ T : Type} (factory : σ → σ × T) (deps : List JSValue)
    (equals : JSValue → JSValue → Option Bool) : σ → σ × T :=
  fun s => factory s

/-- Embedding of `useDeepMemo(factory, deps)`: the source delegates to
`useMemo(factory, deps, deepEquals)`. -/
def useDeepMemo {σ T : Type} (factory : σ → σ × T) (deps : List JSValue) :
    σ → σ × T :=
  useMemo factory deps deepEquals

/-- A JS function value: a heap reference (closure identity under `===`)
together with its call behaviour. -/
structure JSFunctionVal : Type where
  ref : Nat
  call : List JSValue → JSValue

/-- Embedding of `useCallback(factory, deps)`. The source body is
`return ((...args) => factory(...args)) as T`: every call evaluates the
arrow-function expression, allocating a fresh closure (modelled by
consuming the next reference id from the allocator state) whose
invocation forwards its arguments to `factory`. -/
def useCallback (factory : JSFunctionVal) (deps : List JSValue) :
    Nat → Nat × JSFunctionVal :=
  fun nextRef =>
    (nextRef + 1, { ref := nextRef, call := fun args => factory.call args })

/-- A factory that increments an invocation counter on each call and
returns the count, as in the spec's memoization test (§8). -/
def countingFactory : Nat → Nat × Nat :=
  fun calls => (calls + 1, calls + 1)

/-! ### Shared characterization of `shallowEquals` on plain objects -/

theorem shallowEquals_obj_obj (ra rb : Nat) (fa fb : List (String × JSValue))
    (hne : ra ≠ rb) :
    shallowEquals (JSValue.vObj ra fa) (JSValue.vObj rb fb) =
      if fa.length = fb.length then
        some ((fa.map Prod.fst).all fun key =>
          strictEq (jsGet (JSValue.vObj ra fa) key)
            (jsGet (JSValue.vObj rb fb) key))
      else some false := by
  simp [shallowEquals, strictEq, hne, jsTypeof, objectKeys, jsProps]

/-! ### The claims -/

/-- Claim C1: the spec requires that a second `useMemo` call at the same
call site whose dependency list matches the stored one under the
comparator returns the stored value without invoking the factory, so two
calls with deps `[1, 2]` invoke the factory exactly once. The code's
`useMemo` body is the assignment skeleton `return factory();`, so the
factory also runs on the second call: the invocation counter reaches 2,
even though every dependency pair matches under `shallowEquals`. -/
theorem useMemo_reinvokes_factory_on_matching_deps :
    (useMemo countingFactory [JSValue.vNum 1, JSValue.vNum 2] shallowEquals
      (useMemo countingFactory [JSValue.vNum 1, JSValue.vNum 2] shallowEquals
        0).1).1 = 2 ∧
    shallowEquals (JSValue.vNum 1) (JSValue.vNum 1) = some true ∧
    shallowEquals (JSValue.vNum 2) (JSValue.vNum 2) = some true := by
  refine ⟨rfl, ?_, ?_⟩ <;> decide

/-- Claim C2 counterexample: an empty array versus an empty plain object
is not identical, not both-arrays, and not both non-array object-likes
(a type mismatch in the claim's sense), yet `deepEquals` returns true:
both operands pass the `typeof x === "object"` guard and have zero own
keys, so the generic object branch succeeds. -/
theorem deepEquals_mixed_array_object_true :
    strictEq (JSValue.vArr 0 []) (JSValue.vObj 1 []) = false ∧
    isArray (JSValue.vArr 0 []) = true ∧
    isArray (JSValue.vObj 1 []) = false ∧
    deepEquals (JSValue.vArr 0 []) (JSValue.vObj 1 []) = some true := by
  refine ⟨rfl, rfl, rfl, ?_⟩
  decide

/-- Claim C2 amended: for every non-identical pair in which at least one
operand fails the `typeof x === "object"` test — i.e. at least one is a
primitive other than null, which covers all pairs of non-identical
primitives and primitive-versus-object mismatches — `deepEquals`
returns false. (Mismatches in which both operands have JS type
"object", such as an array versus a plain object, instead fall into the
generic object comparison; null versus a non-null object-like raises a
TypeError.) -/
theorem deepEquals_false_of_nonobject (a b : JSValue)
    (hne : strictEq a b = false)
    (hty : jsTypeof a ≠ "object" ∨ jsTypeof b ≠ "object") :
    deepEquals a b = some false := by
  rw [deepEquals_eq]
  cases a <;> cases b <;> simp_all [strictEq, jsTypeof]

/-- Witness for the amended claim C2 at the pair (1, 2). -/
theorem deepEquals_false_of_nonobject_witness :
    deepEquals (JSValue.vNum 1) (JSValue.vNum 2) = some false :=
  deepEquals_false_of_nonobject (JSValue.vNum 1) (JSValue.vNum 2) (by decide)
    (Or.inl (by decide))

/-- Claim C3 counterexample: two non-identical plain objects with equal
key counts where the key "x" of the first does not exist in the second,
yet `deepEquals` returns true: the loop reads the missing key as
`undefined` and `deepEquals(undefined, undefined)` is true, so key
existence in `b` is not actually required. -/
theorem deepEquals_missing_key_counterexample :
    strictEq (JSValue.vObj 0 [("x", JSValue.vUndef)])
      (JSValue.vObj 1 [("y", JSValue.vUndef)]) = false ∧
    objectKeys (JSValue.vObj 1 [("y", JSValue.vUndef)]) = some ["y"] ∧
    "x" ∉ (["y"] : List String) ∧
    deepEquals (JSValue.vObj 0 [("x", JSValue.vUndef)])
      (JSValue.vObj 1 [("y", JSValue.vUndef)]) = some true := by
  refine ⟨rfl, rfl, by decide, ?_⟩
  decide

/-- Claim C3 amended: for non-identical plain objects, `deepEquals`
returns false when the own key counts differ, and otherwise returns
true exactly when for every key `k` of `a` the recursive comparison of
`a[k]` with `b[k]` returns true, where `b[k]` reads as `undefined` when
`k` is absent from `b` (existence of the key in `b` is not itself
checked, and a recursive comparison may raise instead of returning). -/
theorem deepEquals_object_characterization (ra rb : Nat)
    (fa fb : List (String × JSValue)) (hne : ra ≠ rb) :
    (fa.length ≠ fb.length →
      deepEquals (JSValue.vObj ra fa) (JSValue.vObj rb fb) = some false) ∧
    (fa.length = fb.length →
      (deepEquals (JSValue.vObj ra fa) (JSValue.vObj rb fb) = some true ↔
        ∀ k ∈ fa.map Prod.fst,
          deepEquals (jsGet (JSValue.vObj ra fa) k)
            (jsGet (JSValue.vObj rb fb) k) = some true)) := by
  have hs : strictEq (JSValue.vObj ra fa) (JSValue.vObj rb fb) = false := by
    simp [strictEq, hne]
  constructor
  · intro hlen
    rw [deepEquals_eq]
    simp [hs, strictEq, jsTypeof, objectKeys, jsProps, hlen, hne]
  · intro hlen
    have heq : deepEquals (JSValue.vObj ra fa) (JSValue.vObj rb fb)
        = runPairsP deepEquals ((fa.map Prod.fst).map fun k =>
            (jsGet (JSValue.vObj ra fa) k, jsGet (JSValue.vObj rb fb) k)) := by
      rw [deepEquals_eq]
      simp [hs, strictEq, hne, jsTypeof, objectKeys, jsProps, hlen]
    rw [heq, runPairsP_eq_true_iff]
    constructor
    · intro hall k hk
      exact hall (jsGet (JSValue.vObj ra fa) k, jsGet (JSValue.vObj rb fb) k)
        (List.mem_map.mpr ⟨k, hk, rfl⟩)
    · intro hall p hp
      obtain ⟨k, hk, hpk⟩ := List.mem_map.mp hp
      rw [← hpk]
      exact hall k hk

/-- Witness for the amended claim C3 at the spec's §8 example pair
deepEquals({a:[1,{b:2}]}, {a:[1,{b:2}]}) with distinct references. -/
theorem deepEquals_object_characterization_witness :
    deepEquals
      (JSValue.vObj 0
        [("a", JSValue.vArr 10 [JSValue.vNum 1, JSValue.vObj 11 [("b", JSValue.vNum 2)]])])
      (JSValue.vObj 1
        [("a", JSValue.vArr 12 [JSValue.vNum 1, JSValue.vObj 13 [("b", JSValue.vNum 2)]])])
      = some true := by
  have h := deepEquals_object_characterization 0 1
    [("a", JSValue.vArr 10 [JSValue.vNum 1, JSValue.vObj 11 [("b", JSValue.vNum 2)]])]
    [("a", JSValue.vArr 12 [JSValue.vNum 1, JSValue.vObj 13 [("b", JSValue.vNum 2)]])]
    (by decide)
  exact (h.2 rfl).mpr (by decide)

/-! ### The value model extended with NaN

`JSValue` above omits the IEEE-754 NaN number. NaN is the one JS value
at which strict equality is irreflexive (`NaN === NaN` is false while
`typeof NaN` is `"number"`), so reflexivity of `shallowEquals` is the
one property it decides; that claim is settled over this extended
model, which repeats the same translation of the source with NaN
restored as the distinguished number value `vNaN`. -/

inductive JSValueN : Type where
  | vNull : JSValueN
  | vUndef : JSValueN
  | vBool : Bool → JSValueN
  | vNum : Int → JSValueN
  | vNaN : JSValueN
  | vStr : String → JSValueN
  | vArr : Nat → List JSValueN → JSValueN
  | vObj : Nat → List (String × JSValueN) → JSValueN

/-- JS strict equality `===` on the extended model: as `strictEq`, and
`NaN === x` is false for every `x`, in particular `NaN === NaN`. -/
def strictEqN : JSValueN → JSValueN → Bool
  | JSValueN.vNull, JSValueN.vNull => true
  | JSValueN.vUndef, JSValueN.vUndef => true
  | JSValueN.vBool x, JSValueN.vBool y => x == y
  | JSValueN.vNum x, JSValueN.vNum y => x == y
  | JSValueN.vNaN, JSValueN.vNaN => false
  | JSValueN.vStr x, JSValueN.vStr y => x == y
  | JSValueN.vArr r _, JSValueN.vArr s _ => r == s
  | JSValueN.vObj r _, JSValueN.vObj s _ => r == s
  | _, _ => false

/-- JS `typeof` on the extended model: `typeof NaN` is `"number"`. -/
def jsTypeofN : JSValueN → String
  | JSValueN.vNull => "object"
  | JSValueN.vUndef => "undefined"
  | JSValueN.vBool _ => "boolean"
  | JSValueN.vNum _ => "number"
  | JSValueN.vNaN => "number"
  | JSValueN.vStr _ => "string"
  | JSValueN.vArr _ _ => "object"
  | JSValueN.vObj _ _ => "object"

/-- Own enumerable index properties of an array, extended model. -/
def indexPropsN (i : Nat) : List JSValueN → List (String × JSValueN)
  | [] => []
  | v :: rest => (toString i, v) :: indexPropsN (i + 1) rest

/-- Own enumerable properties of a value, extended model. -/
def jsPropsN : JSValueN → List (String × JSValueN)
  | JSValueN.vArr _ elems => indexPropsN 0 elems
  | JSValueN.vObj _ fields => fields
  | _ => []

/-- First-match association lookup, extended model. -/
def assocGetN : List (String × JSValueN) → String → Option JSValueN
  | [], _ => none
  | (k, v) :: rest, key => if k == key then some v else assocGetN rest key

/-- JS property access `v[key]`, extended model. -/
def jsGetN (v : JSValueN) (key : String) : JSValueN :=
  (assocGetN (jsPropsN v) key).getD JSValueN.vUndef

/-- JS `Object.keys`, extended model. -/
def objectKeysN : JSValueN → Option (List String)
  | JSValueN.vNull => none
  | JSValueN.vUndef => none
  | v => some ((jsPropsN v).map Prod.fst)

/-- Embedding of `shallowEquals` over the extended model: the same
translation of the source as `shallowEquals` above, branch for
branch. -/
def shallowEqualsN (objA objB : JSValueN) : Option Bool :=
  if strictEqN objA objB then some true
  else if jsTypeofN objA != "object" || jsTypeofN objB != "object" then
    some false
  else
    match objectKeysN objA, objectKeysN objB with
    | some ka, some kb =>
      if ka.length = kb.length then
        some (ka.all fun key => strictEqN (jsGetN objA key) (jsGetN objB key))
      else some false
    | _, _ => none

/-- Claim C4 counterexample: at x = NaN, `shallowEquals(x, x)` returns
false, not true — `NaN === NaN` is false, and `typeof NaN` is
`"number"`, so the non-object guard returns false. -/
theorem shallowEquals_nan_self_false :
    strictEqN JSValueN.vNaN JSValueN.vNaN = false ∧
    jsTypeofN JSValueN.vNaN = "number" ∧
    shallowEqualsN JSValueN.vNaN JSValueN.vNaN = some false := by
  refine ⟨rfl, rfl, ?_⟩
  decide

/-- Claim C4 amended: `shallowEquals(x, x)` is true for every value x
other than NaN — including null and undefined — via the leading
strict-equality check; at NaN it returns false. -/
theorem shallowEqualsN_self (x : JSValueN) (h : x ≠ JSValueN.vNaN) :
    shallowEqualsN x x = some true := by
  have hrefl : strictEqN x x = true := by
    cases x <;> simp_all [strictEqN]
  simp [shallowEqualsN, hrefl]

/-- Witness for the amended claim C4 at the absence-of-value marker. -/
theorem shallowEqualsN_self_witness :
    shallowEqualsN JSValueN.vNull JSValueN.vNull = some true :=
  shallowEqualsN_self JSValueN.vNull (fun h => JSValueN.noConfusion h)

/-- Claim C5: the spec requires `useDeepMemo` not to re-invoke the
factory when the two dependency lists hold distinct but deep-equal
object instances (while plain `useMemo` with `shallowEquals` would).
The code's `useDeepMemo` delegates to the skeleton `useMemo`, which
invokes the factory unconditionally, so the counter reaches 2 on both
hooks even though the two `{a:1}` instances are reference-unequal yet
deep-equal. -/
theorem useDeepMemo_reinvokes_on_deep_equal_deps :
    (useDeepMemo countingFactory [JSValue.vObj 1 [("a", JSValue.vNum 1)]]
      (useDeepMemo countingFactory [JSValue.vObj 0 [("a", JSValue.vNum 1)]]
        0).1).1 = 2 ∧
    strictEq (JSValue.vObj 0 [("a", JSValue.vNum 1)])
      (JSValue.vObj 1 [("a", JSValue.vNum 1)]) = false ∧
    deepEquals (JSValue.vObj 0 [("a", JSValue.vNum 1)])
      (JSValue.vObj 1 [("a", JSValue.vNum 1)]) = some true ∧
    (useMemo countingFactory [JSValue.vObj 1 [("a", JSValue.vNum 1)]]
      shallowEquals
      (useMemo countingFactory [JSValue.vObj 0 [("a", JSValue.vNum 1)]]
        shallowEquals 0).1).1 = 2 := by
  refine ⟨rfl, rfl, ?_, rfl⟩
  decide

/-- A sample underlying function for `useCallback`, whose result depends
on its arguments so that unchanged forwarding is observable. -/
def forwardingProbe : JSFunctionVal :=
  { ref := 100, call := fun args => JSValue.vArr 200 args }

/-- Claim C6: the spec requires `useCallback` to return the identical
function reference on a second call with matching deps, and the wrapper
to forward arguments and return value unchanged. The code's `useCallback`
body evaluates a fresh arrow function on every call, so the two calls
return wrappers with distinct references (the stable-reference part of
the claim fails), while forwarding does hold. -/
theorem useCallback_returns_fresh_wrapper :
    (useCallback forwardingProbe [JSValue.vNum 1] 0).2.ref
      ≠ ((useCallback forwardingProbe [JSValue.vNum 1]
          (useCallback forwardingProbe [JSValue.vNum 1] 0).1).2).ref ∧
    ∀ args : List JSValue,
      ((useCallback forwardingProbe [JSValue.vNum 1]
          (useCallback forwardingProbe [JSValue.vNum 1] 0).1).2).call args
        = forwardingProbe.call args :=
  ⟨by decide, fun args => rfl⟩

/-- Claim C7: the claim (and the code's own comment, which warns that
null is not an object) requires `shallowEquals` to return false when
exactly one operand is a non-object, without raising. For undefined or
a number against an object the guard works, but `typeof null` is
`"object"`, so null slips past the guard and `Object.keys(null)` raises
a TypeError (modelled as `none`) instead of returning false. -/
theorem shallowEquals_null_object_raises :
    shallowEquals JSValue.vNull (JSValue.vObj 0 []) = none ∧
    shallowEquals JSValue.vUndef (JSValue.vObj 0 []) = some false ∧
    shallowEquals (JSValue.vNum 1) (JSValue.vObj 0 []) = some false := by
  decide

/-- Claim C8: `shallowEquals` compares exactly one level deep. Two
distinct objects with literally equal field lists (in particular flat
objects with identical primitive values) compare true, because each
own value compares strictly equal to itself; while two distinct objects
whose values are structurally equal but reference-distinct nested
objects compare false, because the nested values are compared only by
reference. -/
theorem shallowEquals_one_level (ra rb r1 r2 : Nat)
    (fields inner : List (String × JSValue)) (hab : ra ≠ rb) (h12 : r1 ≠ r2) :
    shallowEquals (JSValue.vObj ra fields) (JSValue.vObj rb fields)
      = some true ∧
    shallowEquals (JSValue.vObj ra [("a", JSValue.vObj r1 inner)])
      (JSValue.vObj rb [("a", JSValue.vObj r2 inner)]) = some false := by
  constructor
  · rw [shallowEquals_obj_obj ra rb fields fields hab, if_pos rfl]
    have hall : ((fields.map Prod.fst).all fun key =>
        strictEq (jsGet (JSValue.vObj ra fields) key)
          (jsGet (JSValue.vObj rb fields) key)) = true := by
      rw [List.all_eq_true]
      intro key hk
      exact strictEq_refl (jsGet (JSValue.vObj ra fields) key)
    rw [hall]
  · rw [shallowEquals_obj_obj ra rb _ _ hab]
    simp [jsGet, jsProps, assocGet, strictEq, h12]

/-- Witness for claim C8 at the spec's §8 examples:
shallowEquals({a:1}, {a:1}) is true for distinct instances, and
shallowEquals({a:{b:1}}, {a:{b:1}}) is false for reference-distinct
nested objects. -/
theorem shallowEquals_one_level_witness :
    shallowEquals (JSValue.vObj 0 [("a", JSValue.vNum 1)])
      (JSValue.vObj 1 [("a", JSValue.vNum 1)]) = some true ∧
    shallowEquals (JSValue.vObj 0 [("a", JSValue.vObj 4 [("b", JSValue.vNum 1)])])
      (JSValue.vObj 1 [("a", JSValue.vObj 5 [("b", JSValue.vNum 1)])])
      = some false := by
  have h1 := shallowEquals_one_level 0 1 4 5 [("a", JSValue.vNum 1)]
    [("b", JSValue.vNum 1)] (by decide) (by decide)
  exact h1

/-- Claim C10 counterexample: on the acyclic pair (null, {}) the code
does not return a boolean — `typeof null` is `"object"`, so the object
branch runs `Object.keys(null)`, which raises a TypeError (modelled as
`none`). -/
theorem deepEquals_null_object_raises :
    deepEquals JSValue.vNull (JSValue.vObj 0 []) = none := by
  decide

/-- Claim C10 amended: for every pair of (finite, acyclic) values the
recursion of `deepEquals` terminates — every recursive call descends to
an array element or an own-property value of the first argument, so any
fuel of at least the structural size `jsSize a` computes the
fuel-independent result (a boolean, or a raised TypeError when a null
operand reaches the object branch). -/
theorem deepEquals_terminates_with_structural_fuel (n : Nat) (a b : JSValue)
    (h : jsSize a ≤ n) : deepEqualsF n a b = some (deepEquals a b) :=
  deepEqualsF_complete n a b h

/-- Witness for claim C10 at a concrete input and fuel. -/
theorem deepEquals_terminates_with_structural_fuel_witness :
    jsSize (JSValue.vObj 0 [("a", JSValue.vNum 1)]) ≤ 9 ∧
    deepEqualsF 9 (JSValue.vObj 0 [("a", JSValue.vNum 1)]) (JSValue.vObj 0 [])
      = some (deepEquals (JSValue.vObj 0 [("a", JSValue.vNum 1)])
          (JSValue.vObj 0 [])) :=
  ⟨by decide, deepEquals_terminates_with_structural_fuel 9
    (JSValue.vObj 0 [("a", JSValue.vNum 1)]) (JSValue.vObj 0 []) (by decide)⟩
